import Mathlib

/-!
Verification of the dynamic-tensor numeric core: the float32 ↔ float16
bit-level codec (`float32_to_float16`, `float16_to_float32`), the linear
quantizer (`quantize_float32_to_int8`, `dequantize_int8_to_float32`), and
the tensor container glue those functions run on.

Modelling conventions.

* A float32 bit pattern is a natural number below 2^32; a float16 encoding
  is a natural number below 2^16.  The codec functions work on these bit
  patterns exactly as the C code works on `uint32_t` / `uint16_t`.
* The quantizer never inspects bit patterns; it only performs float32
  arithmetic.  We model a finite float32 number by its exact rational
  value, and each C float operation by the exact operation followed by
  `roundF32val`, IEEE-754 round-to-nearest-even at single precision
  (the semantics of `float` arithmetic on the reference platform).
  Overflow is modelled by the sentinel value ±2^128, which is larger in
  magnitude than every finite float32; all theorems below keep the values
  they talk about inside the finite range.
* `(int8_t)` conversion of an in-range float truncates toward zero
  (`truncQ`).
-/

namespace DynTensor

/-- The rational number 2^e for an integer exponent `e`,
computed with natural-number powers so that it evaluates by `decide`. -/
def pow2 (e : ℤ) : ℚ :=
  if 0 ≤ e then ((2 ^ e.toNat : ℕ) : ℚ) else ((2 ^ (-e).toNat : ℕ) : ℚ)⁻¹

/-- Round a rational to the nearest integer, ties to even
(the IEEE-754 default rounding direction). -/
def rne (t : ℚ) : ℤ :=
  let n := ⌊t⌋
  let f := t - (n : ℚ)
  if f < 1 / 2 then n
  else if 1 / 2 < f then n + 1
  else if n % 2 = 0 then n else n + 1

/-- The exponent of the binade of `m`, clamped below at
-126 (the subnormal regime of float32): the largest `e` with
`-126 ≤ e ≤ fuel - 127` and `2^e ≤ m`, and `-126` if there is none. -/
def effFind : ℕ → ℚ → ℤ
  | 0, _ => -126
  | k + 1, m => if pow2 ((k : ℤ) - 126) ≤ m then (k : ℤ) - 126 else effFind k m

/-- Round a rational to the value of the nearest float32
(round to nearest, ties to even).  Magnitudes at or beyond
2^128 - 2^103 overflow; the resulting infinity is modelled by ±2^128. -/
def roundF32val (q : ℚ) : ℚ :=
  if q = 0 then 0
  else
    let sgn : ℚ := if q < 0 then -1 else 1
    let m := |q|
    if pow2 128 - pow2 103 ≤ m then sgn * pow2 128
    else
      let e := effFind 254 m
      sgn * ((rne (m * pow2 (23 - e)) : ℤ) : ℚ) * pow2 (e - 23)

/-- Truncation toward zero, the C semantics of `(int8_t)` applied to an
in-range `float`. -/
def truncQ (q : ℚ) : ℤ := if 0 ≤ q then ⌊q⌋ else -⌊-q⌋

/-- One float32 division: exact quotient, rounded to float32. -/
def fdiv32 (x s : ℚ) : ℚ := roundF32val (x / s)

/-- The loop body of `quantize_float32_to_int8` (12332.c lines 185-192):
`value = src->data.f32[i] / scale;` then two sequential clamping `if`s
against 127 and -128, then the `(int8_t)` cast. -/
def quantElem (x scale : ℚ) : ℤ :=
  let value := fdiv32 x scale
  let v1 : ℚ := if 127 < value then 127 else value
  let v2 : ℚ := if v1 < -128 then -128 else v1
  truncQ v2

/-- The loop body of `dequantize_int8_to_float32` (12332.c line 212):
`dst->data.f32[i] = src->data.i8[i] * scale;` — the `int8_t` element is
converted exactly to `float` and one float32 multiply is performed. -/
def dequantElem (q : ℤ) (scale : ℚ) : ℚ := roundF32val ((q : ℚ) * scale)

/-- Element-wise quantization of a float32 buffer. -/
def quantizeList (src : List ℚ) (scale : ℚ) : List ℤ :=
  src.map (fun x => quantElem x scale)

/-- Element-wise dequantization of an int8 buffer. -/
def dequantizeList (src : List ℤ) (scale : ℚ) : List ℚ :=
  src.map (fun q => dequantElem q scale)

/-- Function `float32_to_float16` from 12332.c (lines 34-54), on the float32 bit
pattern `bits` (the C code obtains it by aliasing the float argument).
`exponent` is the `int16_t` rebiased exponent, which can be negative. -/
def float32_to_float16 (bits : ℕ) : ℕ :=
  let sign := (bits >>> 16) &&& 0x8000
  let exponent : ℤ := (((bits >>> 23) &&& 0xFF : ℕ) : ℤ) - 127 + 15
  let mantissa := (bits >>> 13) &&& 0x3FF
  if exponent ≤ 0 then 0
  else if 31 ≤ exponent then sign ||| 0x7C00
  else sign ||| (exponent.toNat <<< 10) ||| mantissa

/-- Function `float16_to_float32` from 12332.c (lines 56-75), returning the float32
bit pattern that the C code reinterprets as a `float` (the returned value
`0.0f` of the early branch has bit pattern 0).  The C statement
`exponent = exponent - 15 + 127;` runs on `uint32_t`; for the 5-bit
exponent field the wraparound of `- 15` cancels and the net effect is
`exponent + 112`. -/
def float16_to_float32 (value : ℕ) : ℕ :=
  if value &&& 0x7FFF = 0 then 0
  else
    let sign := (value &&& 0x8000) <<< 16
    let exponent := (value >>> 10) &&& 0x1F
    let mantissa := value &&& 0x3FF
    let exponent2 := exponent + 112
    sign ||| (exponent2 <<< 23) ||| (mantissa <<< 13)

/-- The exact rational value of a float32 bit pattern with a finite
interpretation: sign bit 31, exponent field bits 23-30 (bias 127, field 0
is the subnormal regime), mantissa bits 0-22. -/
def f32toRat (bits : ℕ) : ℚ :=
  let e := (bits >>> 23) &&& 0xFF
  let m := bits &&& 0x7FFFFF
  let mag : ℚ :=
    if e = 0 then (m : ℚ) * pow2 (-149)
    else ((2 ^ 23 + m : ℕ) : ℚ) * pow2 ((e : ℤ) - 150)
  if bits >>> 31 = 1 then -mag else mag

/-- The `TensorType` enum of 12332.c. -/
inductive TensorType where
  | float32
  | float16
  | int8
  deriving DecidableEq

/-- The storage union of the `Tensor` struct: exactly one variant is
active, as maintained by the type tag discipline of the C code. -/
inductive TensorData where
  | f32 (buf : List ℚ)
  | f16 (buf : List ℕ)
  | i8 (buf : List ℤ)
  deriving DecidableEq

/-- The `Tensor` struct of 12332.c: type tag, dimensions, storage. -/
structure Tensor where
  type : TensorType
  rows : ℕ
  cols : ℕ
  data : TensorData
  deriving DecidableEq

/-- Function `quantize_float32_to_int8` from 12332.c (lines 172-194).  The guard
returns with the destination untouched unless the source is tagged
FLOAT32 and the destination INT8.  Otherwise the loop overwrites the
first `rows*cols` destination elements (the caller contract guarantees
both buffers hold at least that many elements).  The wildcard arm covers
union states the tag discipline never produces. -/
def quantize_float32_to_int8 (src dst : Tensor) (scale : ℚ) : Tensor :=
  if src.type ≠ TensorType.float32 ∨ dst.type ≠ TensorType.int8 then dst
  else
    let total := src.rows * src.cols
    match src.data, dst.data with
    | TensorData.f32 l, TensorData.i8 d =>
        { dst with data := TensorData.i8 (quantizeList (l.take total) scale ++ d.drop total) }
    | _, _ => dst

/-- Function `dequantize_int8_to_float32` from 12332.c (lines 200-214), with the
symmetric guard on the type tags. -/
def dequantize_int8_to_float32 (src dst : Tensor) (scale : ℚ) : Tensor :=
  if src.type ≠ TensorType.int8 ∨ dst.type ≠ TensorType.float32 then dst
  else
    let total := src.rows * src.cols
    match src.data, dst.data with
    | TensorData.i8 l, TensorData.f32 d =>
        { dst with data := TensorData.f32 (dequantizeList (l.take total) scale ++ d.drop total) }
    | _, _ => dst

/-! ### Basic facts about `pow2` -/

theorem pow2_zpow (e : ℤ) : pow2 e = (2 : ℚ) ^ e := by
  rcases e with n | n
  · simp [pow2, zpow_natCast]
  · have h : (0 : ℤ) ≤ Int.negSucc n ↔ False := by
      simp [Int.negSucc_not_nonneg]
    simp only [pow2, h, if_false]
    rw [show (-Int.negSucc n).toNat = n + 1 by rfl]
    rw [show (Int.negSucc n : ℤ) = -((n + 1 : ℕ) : ℤ) by rfl]
    rw [zpow_neg, zpow_natCast]
    push_cast
    ring

theorem pow2_pos (e : ℤ) : 0 < pow2 e := by
  rw [pow2_zpow]; exact zpow_pos (by norm_num) e

theorem pow2_add (a b : ℤ) : pow2 (a + b) = pow2 a * pow2 b := by
  rw [pow2_zpow, pow2_zpow, pow2_zpow]
  exact zpow_add₀ (by norm_num) a b

theorem pow2_le_pow2 {a b : ℤ} (h : a ≤ b) : pow2 a ≤ pow2 b := by
  rw [pow2_zpow, pow2_zpow]
  exact (zpow_le_zpow_iff_right₀ (by norm_num)).mpr h

theorem pow2_lt_pow2 {a b : ℤ} (h : a < b) : pow2 a < pow2 b := by
  rw [pow2_zpow, pow2_zpow]
  exact (zpow_lt_zpow_iff_right₀ (by norm_num)).mpr h

theorem le_of_pow2_le_pow2 {a b : ℤ} (h : pow2 a ≤ pow2 b) : a ≤ b := by
  by_contra hab
  exact absurd h (not_le.mpr (pow2_lt_pow2 (by omega)))

theorem lt_of_pow2_lt {a b : ℤ} (h : pow2 a < pow2 b) : a < b := by
  by_contra hab
  exact absurd h (not_lt.mpr (pow2_le_pow2 (by omega)))

theorem pow2_zero_eq : pow2 0 = 1 := by norm_num [pow2]

theorem pow2_mul_pow2_neg (e : ℤ) : pow2 e * pow2 (-e) = 1 := by
  rw [← pow2_add]; simp [pow2_zero_eq]

/-! ### Facts about round-to-nearest-even on the integers -/

theorem rne_of_lo {t : ℚ} {n : ℤ} (h1 : (n : ℚ) ≤ t) (h2 : t < (n : ℚ) + 1 / 2) :
    rne t = n := by
  have hf : ⌊t⌋ = n := by
    rw [Int.floor_eq_iff]
    constructor
    · exact_mod_cast h1
    · linarith
  simp only [rne, hf]
  rw [if_pos]
  linarith

theorem rne_of_hi {t : ℚ} {n : ℤ} (h1 : (n : ℚ) + 1 / 2 < t) (h2 : t ≤ (n : ℚ) + 1) :
    rne t = n + 1 := by
  rcases eq_or_lt_of_le h2 with heq | hlt
  · have hf : ⌊t⌋ = n + 1 := by
      rw [heq]; exact_mod_cast Int.floor_intCast (α := ℚ) (n + 1)
    simp only [rne, hf]
    rw [if_pos]
    rw [heq]
    push_cast
    linarith
  · have hf : ⌊t⌋ = n := by
      rw [Int.floor_eq_iff]
      constructor
      · linarith
      · linarith
    simp only [rne, hf]
    rw [if_neg (by linarith), if_pos (by linarith)]

theorem rne_err (t : ℚ) : |((rne t : ℤ) : ℚ) - t| ≤ 1 / 2 := by
  have hlo : (⌊t⌋ : ℚ) ≤ t := Int.floor_le t
  have hhi : t < (⌊t⌋ : ℚ) + 1 := Int.lt_floor_add_one t
  simp only [rne]
  split
  · next h => rw [abs_le]; constructor <;> linarith
  · next h =>
    split
    · next h2 => rw [abs_le]; push_cast; constructor <;> linarith
    · next h2 =>
      have hf : t - (⌊t⌋ : ℚ) = 1 / 2 := by linarith
      split
      · rw [abs_le]; constructor <;> linarith
      · rw [abs_le]; push_cast; constructor <;> linarith

theorem rne_intCast (n : ℤ) : rne ((n : ℤ) : ℚ) = n := by
  apply rne_of_lo
  · exact le_refl _
  · linarith

/-! ### Characterizing `effFind` -/

theorem effFind_ge (k : ℕ) (m : ℚ) : -126 ≤ effFind k m := by
  induction k with
  | zero => simp [effFind]
  | succ k ih =>
    simp only [effFind]
    split
    · next h =>
      have hk : (0 : ℤ) ≤ (k : ℤ) := Int.natCast_nonneg k
      omega
    · exact ih

theorem effFind_lower {m : ℚ} (hm : pow2 (-126) ≤ m) (k : ℕ) :
    pow2 (effFind k m) ≤ m := by
  induction k with
  | zero => simpa [effFind] using hm
  | succ k ih =>
    simp only [effFind]
    split
    · next h => exact h
    · exact ih

theorem effFind_upper {m : ℚ} (k : ℕ) (hk : m < pow2 ((k : ℤ) - 126)) :
    m < pow2 (effFind k m + 1) := by
  induction k with
  | zero =>
    simp only [effFind]
    calc m < pow2 ((0 : ℤ) - 126) := by exact_mod_cast hk
    _ ≤ pow2 (-126 + 1) := pow2_le_pow2 (by omega)
  | succ k ih =>
    simp only [effFind]
    split
    · next h =>
      have : ((k + 1 : ℕ) : ℤ) - 126 = (k : ℤ) - 126 + 1 := by push_cast; ring
      rw [← this]
      exact hk
    · next h =>
      exact ih (not_le.mp h)

theorem effFind_eq_of {m : ℚ} {e : ℤ} (h1 : pow2 e ≤ m) (h2 : m < pow2 (e + 1))
    (h3 : -126 ≤ e) (h4 : e ≤ 127) : effFind 254 m = e := by
  have hm : pow2 (-126) ≤ m := le_trans (pow2_le_pow2 h3) h1
  have hub : m < pow2 ((254 : ℕ) - 126 : ℤ) := by
    calc m < pow2 (e + 1) := h2
    _ ≤ pow2 ((254 : ℕ) - 126 : ℤ) := pow2_le_pow2 (by push_cast; omega)
  have hlo := effFind_lower hm 254
  have hhi := effFind_upper 254 hub
  have ha : e < effFind 254 m + 1 :=
    lt_of_pow2_lt (lt_of_le_of_lt h1 hhi)
  have hb : effFind 254 m < e + 1 :=
    lt_of_pow2_lt (lt_of_le_of_lt hlo h2)
  omega

theorem effFind_small {m : ℚ} (hm : m ≤ pow2 (-126)) (k : ℕ) :
    effFind k m = -126 := by
  induction k with
  | zero => rfl
  | succ k ih =>
    simp only [effFind]
    split
    · next h =>
      have hle : ((k : ℤ) - 126) ≤ -126 :=
        le_of_pow2_le_pow2 (le_trans h hm)
      omega
    · exact ih

/-! ### Characterizing `roundF32val` -/

theorem roundF32val_eq (q : ℚ) (e n : ℤ) (hq : q ≠ 0)
    (h1 : pow2 e ≤ |q|) (h2 : |q| < pow2 (e + 1))
    (h3 : -126 ≤ e) (h4 : e ≤ 127)
    (hth : |q| < pow2 128 - pow2 103)
    (h5 : rne (|q| * pow2 (23 - e)) = n) :
    roundF32val q = (if q < 0 then (-1 : ℚ) else 1) * (n : ℚ) * pow2 (e - 23) := by
  simp only [roundF32val, if_neg hq, if_neg (not_le.mpr hth)]
  rw [effFind_eq_of h1 h2 h3 h4, h5]

theorem pow2_one_eq : pow2 1 = 2 := by norm_num [pow2]

/-- Half-ulp error bound for float32 rounding, valid through the whole
finite range: the error is at most 2^-24 relative for magnitudes in the
normal range, and at most 2^-150 absolute in the subnormal range. -/
theorem round_err (q : ℚ) (h : |q| ≤ pow2 127) :
    |roundF32val q - q| ≤ max (|q| * pow2 (-24)) (pow2 (-150)) := by
  by_cases hq : q = 0
  · subst hq
    simp only [roundF32val, if_pos rfl, sub_zero, abs_zero]
    exact le_max_of_le_right (le_of_lt (pow2_pos _))
  · have hth : |q| < pow2 128 - pow2 103 := by
      have h1 : pow2 103 < pow2 127 := pow2_lt_pow2 (by omega)
      have h2 : pow2 128 = pow2 127 * 2 := by
        rw [show (128 : ℤ) = 127 + 1 by ring, pow2_add, pow2_one_eq]
      linarith
    simp only [roundF32val, if_neg hq, if_neg (not_le.mpr hth)]
    set e := effFind 254 |q| with he
    set t := |q| * pow2 (23 - e) with ht
    set nn : ℚ := ((rne t : ℤ) : ℚ) with hnn
    have hPP : pow2 (23 - e) * pow2 (e - 23) = 1 := by
      rw [← pow2_add, show 23 - e + (e - 23) = 0 by ring, pow2_zero_eq]
    have hmP : t * pow2 (e - 23) = |q| := by
      rw [ht, mul_assoc, hPP, mul_one]
    have key : abs (nn * pow2 (e - 23) - |q|) ≤ max (|q| * pow2 (-24)) (pow2 (-150)) := by
      have step : abs (nn * pow2 (e - 23) - |q|) = abs (nn - t) * pow2 (e - 23) := by
        rw [← hmP, ← sub_mul, abs_mul, abs_of_pos (pow2_pos _)]
      rw [step]
      have hhalf : abs (nn - t) * pow2 (e - 23) ≤ pow2 (e - 24) := by
        have h12 : (1 / 2 : ℚ) * pow2 (e - 23) = pow2 (e - 24) := by
          rw [show e - 23 = e - 24 + 1 by ring, pow2_add, pow2_one_eq]
          ring
        calc abs (nn - t) * pow2 (e - 23)
            ≤ (1 / 2) * pow2 (e - 23) :=
              mul_le_mul_of_nonneg_right (rne_err t) (le_of_lt (pow2_pos _))
        _ = pow2 (e - 24) := h12
      refine le_trans hhalf ?_
      by_cases hm : pow2 (-126) ≤ |q|
      · refine le_max_of_le_left ?_
        have hlow : pow2 e ≤ |q| := effFind_lower hm 254
        calc pow2 (e - 24) = pow2 e * pow2 (-24) := by
              rw [show e - 24 = e + -24 by ring, pow2_add]
        _ ≤ |q| * pow2 (-24) :=
              mul_le_mul_of_nonneg_right hlow (le_of_lt (pow2_pos _))
      · refine le_max_of_le_right ?_
        have he2 : e = -126 := by
          rw [he]
          exact effFind_small (le_of_lt (not_le.mp hm)) 254
        rw [he2]
        exact pow2_le_pow2 (by omega)
    rcases lt_trichotomy q 0 with hneg | hzero | hpos
    · rw [if_pos hneg]
      have habs : |q| = -q := abs_of_neg hneg
      have hre : (-1 : ℚ) * nn * pow2 (e - 23) - q = -(nn * pow2 (e - 23) - |q|) := by
        rw [habs]; ring
      rw [hre, abs_neg]
      exact key
    · exact absurd hzero hq
    · rw [if_neg (not_lt.mpr (le_of_lt hpos))]
      have habs : |q| = q := abs_of_pos hpos
      have hre : (1 : ℚ) * nn * pow2 (e - 23) - q = nn * pow2 (e - 23) - |q| := by
        rw [habs]; ring
      rw [hre]
      exact key

/-- Rounding a value of magnitude at least 2^127 produces a value of
magnitude at least 2^127 (so a rounded value inside [-128, 127] can only
come from a quotient of magnitude below 2^127). -/
theorem round_big (q : ℚ) (h : pow2 127 ≤ |q|) : pow2 127 ≤ |roundF32val q| := by
  have hq : q ≠ 0 := by
    intro h0
    rw [h0, abs_zero] at h
    exact absurd h (not_le.mpr (pow2_pos _))
  have habs1 : |(if q < 0 then (-1 : ℚ) else 1)| = 1 := by
    split <;> norm_num
  by_cases hth : pow2 128 - pow2 103 ≤ |q|
  · simp only [roundF32val, if_neg hq, if_pos hth]
    rw [abs_mul, habs1, one_mul, abs_of_pos (pow2_pos _)]
    exact pow2_le_pow2 (by omega)
  · simp only [roundF32val, if_neg hq, if_neg hth]
    have hub : |q| < pow2 (127 + 1) := by
      have hpos2 : (0 : ℚ) < pow2 103 := pow2_pos _
      have h128 : pow2 (127 + 1) = pow2 128 := by norm_num
      rw [h128]
      linarith [not_le.mp hth]
    have he : effFind 254 |q| = 127 := effFind_eq_of h hub (by omega) (le_refl _)
    rw [he]
    set t := |q| * pow2 (23 - (127 : ℤ)) with ht
    have htge : pow2 23 ≤ t := by
      have hstep : pow2 127 * pow2 (23 - 127) ≤ |q| * pow2 (23 - 127) :=
        mul_le_mul_of_nonneg_right h (le_of_lt (pow2_pos _))
      calc pow2 23 = pow2 127 * pow2 (23 - 127) := by
            rw [← pow2_add]
            norm_num
      _ ≤ |q| * pow2 (23 - 127) := hstep
      _ = t := rfl
    have hrne := rne_err t
    rw [abs_le] at hrne
    have h23 : pow2 23 = (8388608 : ℚ) := by norm_num [pow2]; decide
    have hn : (8388608 : ℤ) ≤ rne t := by
      have hcast : (8388607 : ℚ) < ((rne t : ℤ) : ℚ) := by
        rw [h23] at htge
        linarith [hrne.1]
      have : (8388607 : ℤ) < rne t := by exact_mod_cast hcast
      omega
    have hnpos : (0 : ℚ) < ((rne t : ℤ) : ℚ) := by
      have : ((8388608 : ℤ) : ℚ) ≤ ((rne t : ℤ) : ℚ) := by exact_mod_cast hn
      linarith
    rw [abs_mul, abs_mul, habs1, one_mul, abs_of_pos hnpos, abs_of_pos (pow2_pos _)]
    calc pow2 127 = 8388608 * pow2 (127 - 23) := by
          rw [← h23, ← pow2_add]
          norm_num
    _ ≤ ((rne t : ℤ) : ℚ) * pow2 (127 - 23) := by
          have hc : ((8388608 : ℤ) : ℚ) ≤ ((rne t : ℤ) : ℚ) := by exact_mod_cast hn
          exact mul_le_mul_of_nonneg_right (by exact_mod_cast hc) (le_of_lt (pow2_pos _))

theorem natAbs_cast_rat (n : ℤ) : ((n.natAbs : ℕ) : ℚ) = |(n : ℚ)| := by
  have hc : (((n.natAbs : ℕ) : ℤ) : ℚ) = ((n.natAbs : ℕ) : ℚ) := Int.cast_natCast _
  rw [← hc]
  push_cast
  ring_nf

/-- Integer multiples of 2^-149 up to 2^23 of them are subnormal (or the
smallest normal) float32 values and round to themselves. -/
theorem round_exact_small (n : ℤ) (h : n.natAbs ≤ 2 ^ 23) :
    roundF32val ((n : ℚ) * pow2 (-149)) = (n : ℚ) * pow2 (-149) := by
  by_cases hn : n = 0
  · subst hn; simp [roundF32val]
  · set q := (n : ℚ) * pow2 (-149) with hqdef
    have hq : q ≠ 0 :=
      mul_ne_zero (Int.cast_ne_zero.mpr hn) (ne_of_gt (pow2_pos _))
    have hcastabs : ((n.natAbs : ℕ) : ℚ) = |(n : ℚ)| := natAbs_cast_rat n
    have habsq : |q| = ((n.natAbs : ℕ) : ℚ) * pow2 (-149) := by
      rw [hqdef, abs_mul, abs_of_pos (pow2_pos _), hcastabs]
    have hm : |q| ≤ pow2 (-126) := by
      rw [habsq]
      have h1 : ((n.natAbs : ℕ) : ℚ) ≤ pow2 23 := by
        have h2 : pow2 23 = ((2 ^ 23 : ℕ) : ℚ) := by norm_num [pow2]; decide
        rw [h2]
        exact_mod_cast h
      calc ((n.natAbs : ℕ) : ℚ) * pow2 (-149) ≤ pow2 23 * pow2 (-149) :=
            mul_le_mul_of_nonneg_right h1 (le_of_lt (pow2_pos _))
      _ = pow2 (-126) := by
            rw [← pow2_add]
            norm_num
    have hth : ¬ (pow2 128 - pow2 103 ≤ |q|) := by
      push_neg
      have h1 : pow2 (-126) < pow2 103 := pow2_lt_pow2 (by omega)
      have h2 : pow2 103 + pow2 103 = pow2 104 := by
        have h3 : pow2 104 = pow2 103 * 2 := by
          rw [show (104 : ℤ) = 103 + 1 by ring, pow2_add, pow2_one_eq]
        linarith
      have h4 : pow2 104 ≤ pow2 128 := pow2_le_pow2 (by omega)
      linarith [hm]
    simp only [roundF32val, if_neg hq, if_neg hth]
    rw [effFind_small hm 254]
    have hscaled : |q| * pow2 (23 - (-126 : ℤ)) = ((n.natAbs : ℕ) : ℚ) := by
      rw [habsq, mul_assoc, ← pow2_add, show (-149 : ℤ) + (23 - (-126 : ℤ)) = 0 by ring,
        pow2_zero_eq, mul_one]
    rw [hscaled]
    have hrne : rne ((n.natAbs : ℕ) : ℚ) = ((n.natAbs : ℕ) : ℤ) := by
      have hc : (((n.natAbs : ℕ) : ℤ) : ℚ) = ((n.natAbs : ℕ) : ℚ) := Int.cast_natCast _
      rw [← hc, rne_intCast]
    rw [hrne]
    have hcast2 : (((n.natAbs : ℕ) : ℤ) : ℚ) = |(n : ℚ)| := by
      have hc : (((n.natAbs : ℕ) : ℤ) : ℚ) = ((n.natAbs : ℕ) : ℚ) := Int.cast_natCast _
      rw [hc, natAbs_cast_rat]
    rcases lt_trichotomy n 0 with hneg | hzero | hpos
    · have hqneg : q < 0 := by
        rw [hqdef]
        exact mul_neg_of_neg_of_pos (by exact_mod_cast hneg) (pow2_pos _)
      rw [if_pos hqneg, hcast2, abs_of_neg (show (n : ℚ) < 0 by exact_mod_cast hneg), hqdef]
      ring_nf
    · exact absurd hzero hn
    · have hqpos : 0 < q := by
        rw [hqdef]
        exact mul_pos (by exact_mod_cast hpos) (pow2_pos _)
      rw [if_neg (not_lt.mpr (le_of_lt hqpos)), hcast2,
        abs_of_pos (show (0 : ℚ) < (n : ℚ) by exact_mod_cast hpos), hqdef]
      ring_nf

/-! ### Facts about truncation toward zero -/

theorem truncQ_err (q : ℚ) : |((truncQ q : ℤ) : ℚ) - q| < 1 := by
  simp only [truncQ]
  split
  · next h =>
    have h1 : (⌊q⌋ : ℚ) ≤ q := Int.floor_le q
    have h2 : q < (⌊q⌋ : ℚ) + 1 := Int.lt_floor_add_one q
    rw [abs_lt]
    constructor <;> linarith
  · next h =>
    have h1 : (⌊-q⌋ : ℚ) ≤ -q := Int.floor_le (-q)
    have h2 : -q < (⌊-q⌋ : ℚ) + 1 := Int.lt_floor_add_one (-q)
    rw [abs_lt]
    push_cast
    constructor <;> linarith

theorem truncQ_le_of {q : ℚ} (h : q ≤ 127) : truncQ q ≤ 127 := by
  simp only [truncQ]
  split
  · next h0 =>
    have : (⌊q⌋ : ℚ) ≤ 127 := le_trans (Int.floor_le q) h
    exact_mod_cast this
  · next h0 =>
    have : (0 : ℤ) ≤ ⌊-q⌋ := Int.floor_nonneg.mpr (by linarith [not_le.mp h0])
    omega

theorem truncQ_ge_of {q : ℚ} (h : -128 ≤ q) : -128 ≤ truncQ q := by
  simp only [truncQ]
  split
  · next h0 =>
    have : (0 : ℤ) ≤ ⌊q⌋ := Int.floor_nonneg.mpr h0
    omega
  · next h0 =>
    have h1 : (⌊-q⌋ : ℚ) ≤ -q := Int.floor_le (-q)
    have : (⌊-q⌋ : ℚ) ≤ 128 := by linarith
    have : ⌊-q⌋ ≤ 128 := by exact_mod_cast this
    omega

theorem truncQ_eq_nonneg {q : ℚ} {n : ℤ} (h3 : 0 ≤ n) (h1 : (n : ℚ) ≤ q)
    (h2 : q < (n : ℚ) + 1) : truncQ q = n := by
  have h0 : (0 : ℚ) ≤ q := le_trans (by exact_mod_cast h3) h1
  simp only [truncQ, if_pos h0]
  rw [Int.floor_eq_iff]
  exact ⟨h1, h2⟩

theorem truncQ_eq_nonpos {q : ℚ} {n : ℤ} (h3 : n ≤ 0) (h1 : (n : ℚ) - 1 < q)
    (h2 : q ≤ (n : ℚ)) : truncQ q = n := by
  by_cases h0 : 0 ≤ q
  · have hq0 : q = 0 := le_antisymm (le_trans h2 (by exact_mod_cast h3)) h0
    have hn0 : n = 0 := by
      have hup : (n : ℚ) ≤ 0 := by exact_mod_cast h3
      have hlo : (0 : ℚ) ≤ n := hq0 ▸ h2
      exact_mod_cast le_antisymm hup hlo
    simp [truncQ, hq0, hn0]
  · simp only [truncQ, if_neg h0]
    have : ⌊-q⌋ = -n := by
      rw [Int.floor_eq_iff]
      constructor
      · push_cast; linarith
      · push_cast; linarith
    omega

/-! ### Numeral values of `pow2` and quantizer helpers -/

theorem pow2_7_eq : pow2 7 = 128 := by norm_num [pow2]; decide

theorem pow2_23_eq : pow2 23 = 8388608 := by norm_num [pow2]; decide

theorem pow2_14_eq : pow2 14 = 16384 := by norm_num [pow2]; decide

theorem pow2_17_eq : pow2 17 = 131072 := by norm_num [pow2]; decide

theorem pow2_24_eq : pow2 24 = 16777216 := by norm_num [pow2]; decide

theorem pow2_neg_eq (e : ℤ) : pow2 (-e) = (pow2 e)⁻¹ := by
  rw [pow2_zpow, pow2_zpow, zpow_neg]

/-- When the rounded quotient needs no clamping, `quantElem` is plain
truncation of the rounded quotient. -/
theorem quantElem_eq_trunc {x s : ℚ} (hlo : -128 ≤ fdiv32 x s) (hhi : fdiv32 x s ≤ 127) :
    quantElem x s = truncQ (fdiv32 x s) := by
  simp only [quantElem]
  rw [if_neg (not_lt.mpr hhi), if_neg (not_lt.mpr hlo)]

/-- The round-trip error bound for the quantizer, C8 as amended: for a
float32-representable positive scale `s` (an integer multiple of 2^-149)
up to 2^120 and a value that does not saturate, the truncation step costs
up to one full quantization step `s` (not `s/2`), and the two float32
roundings cost a further relative 2^-14 at most. -/
theorem quant_dequant_err (x s : ℚ) (k : ℤ) (hk : s = (k : ℚ) * pow2 (-149))
    (h0 : 0 < s) (hbig : s ≤ pow2 120)
    (hlo : -128 ≤ fdiv32 x s) (hhi : fdiv32 x s ≤ 127) :
    |dequantElem (quantElem x s) s - x| ≤ s * (1 + pow2 (-14)) := by
  have hv128 : |fdiv32 x s| ≤ 128 := abs_le.mpr ⟨by linarith, by linarith⟩
  have h128lt : (128 : ℚ) < pow2 127 := by
    have h1 : pow2 8 ≤ pow2 127 := pow2_le_pow2 (by omega)
    have h2 : pow2 8 = 256 := by norm_num [pow2]; decide
    linarith
  -- the exact quotient cannot be huge, else rounding it would be huge
  have hw127 : |x / s| ≤ pow2 127 := by
    by_contra hcon
    have h1 : pow2 127 ≤ |x / s| := (not_le.mp hcon).le
    have h2 := round_big (x / s) h1
    have h3 : pow2 127 ≤ |fdiv32 x s| := h2
    linarith [abs_le.mp hv128, le_trans h3 hv128]
  have hre := round_err (x / s) hw127
  have hvw0 : |fdiv32 x s - x / s| ≤ max (|x / s| * pow2 (-24)) (pow2 (-150)) := hre
  have hwv : |x / s| ≤ |fdiv32 x s| + |fdiv32 x s - x / s| := by
    have h1 : |x / s| - |fdiv32 x s| ≤ |x / s - fdiv32 x s| :=
      abs_sub_abs_le_abs_sub _ _
    rw [abs_sub_comm] at h1
    linarith
  have hp24 : pow2 (-24) = (16777216 : ℚ)⁻¹ := by
    rw [show (-24 : ℤ) = -(24 : ℤ) by ring, pow2_neg_eq, pow2_24_eq]
  have hw129 : |x / s| ≤ 129 := by
    rcases max_cases (|x / s| * pow2 (-24)) (pow2 (-150)) with ⟨hmax, _⟩ | ⟨hmax, _⟩
    · rw [hmax] at hvw0
      rw [hp24] at hvw0
      have habs := abs_le.mp hv128
      have h1 : |x / s| ≤ 128 + |x / s| * (16777216 : ℚ)⁻¹ := by
        have := le_trans hwv (by linarith [hvw0] : |fdiv32 x s| + |fdiv32 x s - x / s| ≤ 128 + |x / s| * (16777216 : ℚ)⁻¹)
        linarith
      rw [inv_eq_one_div] at h1
      linarith
    · rw [hmax] at hvw0
      have h1 : pow2 (-150) ≤ 1 := by
        have := pow2_le_pow2 (show (-150 : ℤ) ≤ 0 by omega)
        rw [pow2_zero_eq] at this
        exact this
      linarith [hwv, abs_le.mp hv128]
  have hvw : |fdiv32 x s - x / s| ≤ 130 * pow2 (-24) := by
    refine le_trans hvw0 (max_le ?_ ?_)
    · calc |x / s| * pow2 (-24) ≤ 129 * pow2 (-24) :=
            mul_le_mul_of_nonneg_right hw129 (le_of_lt (pow2_pos _))
      _ ≤ 130 * pow2 (-24) := by linarith [pow2_pos (-24 : ℤ)]
    · have h1 : pow2 (-150) ≤ pow2 (-24) := pow2_le_pow2 (by omega)
      linarith [pow2_pos (-24 : ℤ)]
  -- the quantized integer
  have hqi : quantElem x s = truncQ (fdiv32 x s) := quantElem_eq_trunc hlo hhi
  have hqle : quantElem x s ≤ 127 := by rw [hqi]; exact truncQ_le_of hhi
  have hqge : -128 ≤ quantElem x s := by rw [hqi]; exact truncQ_ge_of hlo
  have hqabs : |((quantElem x s : ℤ) : ℚ)| ≤ 128 := by
    rw [abs_le]
    constructor
    · have : ((-128 : ℤ) : ℚ) ≤ ((quantElem x s : ℤ) : ℚ) := by exact_mod_cast hqge
      push_cast at this
      linarith
    · have : ((quantElem x s : ℤ) : ℚ) ≤ ((127 : ℤ) : ℚ) := by exact_mod_cast hqle
      push_cast at this
      linarith
  have hqv : |((quantElem x s : ℤ) : ℚ) - fdiv32 x s| < 1 := by
    rw [hqi]
    exact truncQ_err (fdiv32 x s)
  have hx : x = x / s * s := (div_mul_cancel₀ x (ne_of_gt h0)).symm
  -- error of the final float32 multiply
  have hdq : |dequantElem (quantElem x s) s - ((quantElem x s : ℤ) : ℚ) * s| ≤ s * pow2 (-17) := by
    have hspos := h0
    by_cases hq0 : quantElem x s = 0
    · rw [hq0]
      simp only [dequantElem, Int.cast_zero, zero_mul, roundF32val, if_pos rfl, sub_zero,
        abs_zero]
      exact mul_nonneg (le_of_lt h0) (le_of_lt (pow2_pos _))
    · by_cases hsub : |((quantElem x s : ℤ) : ℚ) * s| < pow2 (-126)
      · -- the product is an exact subnormal: no rounding error at all
        have hqk : ((quantElem x s * k : ℤ) : ℚ) * pow2 (-149) = ((quantElem x s : ℤ) : ℚ) * s := by
          rw [hk]; push_cast; ring
        have hna : (quantElem x s * k).natAbs ≤ 2 ^ 23 := by
          have h1 : |((quantElem x s * k : ℤ) : ℚ)| * pow2 (-149) < pow2 23 * pow2 (-149) := by
            have h2 : |((quantElem x s * k : ℤ) : ℚ) * pow2 (-149)| < pow2 (-126) := by
              rw [hqk]; exact hsub
            rw [abs_mul, abs_of_pos (pow2_pos _)] at h2
            have h3 : pow2 23 * pow2 (-149) = pow2 (-126) := by
              rw [← pow2_add]; norm_num
            rw [h3]
            exact h2
          have h4 : |((quantElem x s * k : ℤ) : ℚ)| < pow2 23 :=
            lt_of_mul_lt_mul_right h1 (le_of_lt (pow2_pos _))
          have h5 : (((quantElem x s * k).natAbs : ℕ) : ℚ) < ((2 ^ 23 : ℕ) : ℚ) := by
            rw [natAbs_cast_rat]
            rw [pow2_23_eq] at h4
            calc |((quantElem x s * k : ℤ) : ℚ)| < 8388608 := h4
            _ = ((2 ^ 23 : ℕ) : ℚ) := by norm_num
          have h6 : (quantElem x s * k).natAbs < 2 ^ 23 := by exact_mod_cast h5
          omega
        have hexact := round_exact_small (quantElem x s * k) hna
        have : dequantElem (quantElem x s) s = ((quantElem x s : ℤ) : ℚ) * s := by
          simp only [dequantElem]
          rw [← hqk, hexact, hqk]
        rw [this, sub_self, abs_zero]
        exact mul_nonneg (le_of_lt h0) (le_of_lt (pow2_pos _))
      · push_neg at hsub
        have h127 : |((quantElem x s : ℤ) : ℚ) * s| ≤ pow2 127 := by
          rw [abs_mul, abs_of_pos h0]
          calc |((quantElem x s : ℤ) : ℚ)| * s ≤ 128 * pow2 120 := by
                have hs0 : (0 : ℚ) ≤ s := le_of_lt h0
                exact mul_le_mul hqabs hbig hs0 (by norm_num)
          _ = pow2 127 := by rw [← pow2_7_eq, ← pow2_add]; norm_num
        have herr := round_err (((quantElem x s : ℤ) : ℚ) * s) h127
        refine le_trans herr (max_le ?_ ?_)
        · calc |((quantElem x s : ℤ) : ℚ) * s| * pow2 (-24)
              ≤ 128 * s * pow2 (-24) := by
                refine mul_le_mul_of_nonneg_right ?_ (le_of_lt (pow2_pos _))
                rw [abs_mul, abs_of_pos h0]
                exact mul_le_mul_of_nonneg_right hqabs (le_of_lt h0)
          _ = s * pow2 (-17) := by
                rw [show (-17 : ℤ) = 7 + -24 by ring, pow2_add, ← pow2_7_eq]
                ring
        · calc pow2 (-150) = pow2 (-126) * pow2 (-24) := by
                rw [← pow2_add]; norm_num
          _ ≤ |((quantElem x s : ℤ) : ℚ) * s| * pow2 (-24) :=
                mul_le_mul_of_nonneg_right hsub (le_of_lt (pow2_pos _))
          _ ≤ 128 * s * pow2 (-24) := by
                refine mul_le_mul_of_nonneg_right ?_ (le_of_lt (pow2_pos _))
                rw [abs_mul, abs_of_pos h0]
                exact mul_le_mul_of_nonneg_right hqabs (le_of_lt h0)
          _ = s * pow2 (-17) := by
                rw [show (-17 : ℤ) = 7 + -24 by ring, pow2_add, ← pow2_7_eq]
                ring
  -- error of the quantization step
  have hqsx : |((quantElem x s : ℤ) : ℚ) * s - x| ≤ s * (1 + 130 * pow2 (-24)) := by
    have h1 : ((quantElem x s : ℤ) : ℚ) * s - x = (((quantElem x s : ℤ) : ℚ) - x / s) * s := by
      rw [sub_mul, div_mul_cancel₀ x (ne_of_gt h0)]
    rw [h1, abs_mul, abs_of_pos h0]
    have h2 : |((quantElem x s : ℤ) : ℚ) - x / s| ≤ 1 + 130 * pow2 (-24) := by
      have h3 : |((quantElem x s : ℤ) : ℚ) - x / s| ≤
          |((quantElem x s : ℤ) : ℚ) - fdiv32 x s| + |fdiv32 x s - x / s| := by
        have := abs_add (((quantElem x s : ℤ) : ℚ) - fdiv32 x s) (fdiv32 x s - x / s)
        calc |((quantElem x s : ℤ) : ℚ) - x / s|
            = |(((quantElem x s : ℤ) : ℚ) - fdiv32 x s) + (fdiv32 x s - x / s)| := by
              congr 1
              ring
        _ ≤ _ := this
      linarith [hqv, hvw]
    calc |((quantElem x s : ℤ) : ℚ) - x / s| * s ≤ (1 + 130 * pow2 (-24)) * s :=
          mul_le_mul_of_nonneg_right h2 (le_of_lt h0)
    _ = s * (1 + 130 * pow2 (-24)) := by ring
  -- assemble
  have htri : |dequantElem (quantElem x s) s - x| ≤
      |dequantElem (quantElem x s) s - ((quantElem x s : ℤ) : ℚ) * s| +
      |((quantElem x s : ℤ) : ℚ) * s - x| := by
    have := abs_add (dequantElem (quantElem x s) s - ((quantElem x s : ℤ) : ℚ) * s)
      (((quantElem x s : ℤ) : ℚ) * s - x)
    calc |dequantElem (quantElem x s) s - x|
        = |(dequantElem (quantElem x s) s - ((quantElem x s : ℤ) : ℚ) * s) +
          (((quantElem x s : ℤ) : ℚ) * s - x)| := by
          congr 1
          ring
    _ ≤ _ := this
  have hfinal : s * pow2 (-17) + s * (1 + 130 * pow2 (-24)) ≤ s * (1 + pow2 (-14)) := by
    have hv17 : pow2 (-17 : ℤ) = (131072 : ℚ)⁻¹ := by
      rw [show (-17 : ℤ) = -(17 : ℤ) by ring, pow2_neg_eq, pow2_17_eq]
    have hv14 : pow2 (-14 : ℤ) = (16384 : ℚ)⁻¹ := by
      rw [show (-14 : ℤ) = -(14 : ℤ) by ring, pow2_neg_eq, pow2_14_eq]
    rw [hv17, hv14, hp24]
    have hs0 : (0 : ℚ) < s := h0
    nlinarith
  linarith [htri, hdq, hqsx, hfinal]

/-! ### Evaluating the model on concrete inputs

The irreducible rational arithmetic of the standard library blocks kernel
evaluation, so concrete rounding results are obtained through
`roundF32val_eq` with the binade bounds and the rounded integer discharged
by `norm_num`. -/

theorem int_toNat_lit (n : ℕ) [n.AtLeastTwo] :
    (no_index (OfNat.ofNat n) : ℤ).toNat = OfNat.ofNat n := rfl

theorem rne_down (t : ℚ) (n : ℤ) (h1 : (n : ℚ) ≤ t) (h2 : t < (n : ℚ) + 1 / 2) :
    rne t = n := @rne_of_lo t n h1 h2

theorem rne_up (t : ℚ) (n : ℤ) (h1 : (n : ℚ) - 1 / 2 < t) (h2 : t ≤ (n : ℚ)) :
    rne t = n := by
  have h1' : ((n - 1 : ℤ) : ℚ) + 1 / 2 < t := by push_cast; linarith
  have h2' : t ≤ ((n - 1 : ℤ) : ℚ) + 1 := by push_cast; linarith
  have h := @rne_of_hi t (n - 1) h1' h2'
  rw [h]
  ring

theorem roundF32val_pos_eq (q : ℚ) (e n : ℤ) (hq : 0 < q)
    (h1 : pow2 e ≤ q) (h2 : q < pow2 (e + 1)) (h3 : -126 ≤ e) (h4 : e ≤ 127)
    (hth : q < pow2 128 - pow2 103) (h5 : rne (q * pow2 (23 - e)) = n) :
    roundF32val q = (n : ℚ) * pow2 (e - 23) := by
  have habs : |q| = q := abs_of_pos hq
  rw [roundF32val_eq q e n (ne_of_gt hq) (by rw [habs]; exact h1) (by rw [habs]; exact h2) h3 h4
    (by rw [habs]; exact hth) (by rw [habs]; exact h5)]
  rw [if_neg (not_lt.mpr (le_of_lt hq))]
  ring

theorem roundF32val_neg_eq (q : ℚ) (e n : ℤ) (hq : q < 0)
    (h1 : pow2 e ≤ -q) (h2 : -q < pow2 (e + 1)) (h3 : -126 ≤ e) (h4 : e ≤ 127)
    (hth : -q < pow2 128 - pow2 103) (h5 : rne (-q * pow2 (23 - e)) = n) :
    roundF32val q = -((n : ℚ) * pow2 (e - 23)) := by
  have habs : |q| = -q := abs_of_neg hq
  rw [roundF32val_eq q e n (ne_of_lt hq) (by rw [habs]; exact h1) (by rw [habs]; exact h2) h3 h4
    (by rw [habs]; exact hth) (by rw [habs]; exact h5)]
  rw [if_pos hq]
  ring

theorem quantElem_eval (x s v : ℚ) (n : ℤ) (hv : fdiv32 x s = v)
    (hhi : v ≤ 127) (hlo : -128 ≤ v) (hn : truncQ v = n) : quantElem x s = n := by
  simp only [quantElem, hv]
  rw [if_neg (not_lt.mpr hhi), if_neg (not_lt.mpr hlo), hn]

theorem quantElem_eval_hi (x s v : ℚ) (hv : fdiv32 x s = v) (hhi : 127 < v) :
    quantElem x s = 127 := by
  simp only [quantElem, hv]
  rw [if_pos hhi, if_neg (by norm_num : ¬ ((127 : ℚ) < -128))]
  exact truncQ_eq_nonneg (by norm_num) (by norm_num) (by norm_num)

theorem quantElem_eval_lo (x s v : ℚ) (hv : fdiv32 x s = v) (hhi : v ≤ 127)
    (hlo : v < -128) : quantElem x s = -128 := by
  simp only [quantElem, hv]
  rw [if_neg (not_lt.mpr hhi), if_pos hlo]
  exact truncQ_eq_nonpos (by norm_num) (by norm_num) (by norm_num)

/-! The float32 values of the decimal literals of the demo and of the
worked examples of the spec: `0.5f`, `-1.2f`, `3.4f`, `2.1f`, `0.1f`, `12.8f`,
`-13.0f`, `0.19f`. -/

theorem lit_half : roundF32val (1 / 2) = 1 / 2 := by
  rw [roundF32val_pos_eq (1 / 2) (-1) 8388608 (by norm_num)
    (by norm_num [pow2, int_toNat_lit]) (by norm_num [pow2, int_toNat_lit])
    (by norm_num) (by norm_num) (by norm_num [pow2, int_toNat_lit])
    (rne_down _ 8388608 (by norm_num [pow2, int_toNat_lit])
      (by norm_num [pow2, int_toNat_lit]))]
  norm_num [pow2, int_toNat_lit]

theorem lit_m12 : roundF32val (-6 / 5) = -(10066330 * pow2 (-23)) := by
  rw [roundF32val_neg_eq (-6 / 5) 0 10066330 (by norm_num)
    (by norm_num [pow2, int_toNat_lit]) (by norm_num [pow2, int_toNat_lit])
    (by norm_num) (by norm_num) (by norm_num [pow2, int_toNat_lit])
    (rne_up _ 10066330 (by norm_num [pow2, int_toNat_lit])
      (by norm_num [pow2, int_toNat_lit]))]
  norm_num

theorem lit_34 : roundF32val (17 / 5) = 14260634 * pow2 (-22) := by
  rw [roundF32val_pos_eq (17 / 5) 1 14260634 (by norm_num)
    (by norm_num [pow2, int_toNat_lit]) (by norm_num [pow2, int_toNat_lit])
    (by norm_num) (by norm_num) (by norm_num [pow2, int_toNat_lit])
    (rne_up _ 14260634 (by norm_num [pow2, int_toNat_lit])
      (by norm_num [pow2, int_toNat_lit]))]
  norm_num

theorem lit_21 : roundF32val (21 / 10) = 8808038 * pow2 (-22) := by
  rw [roundF32val_pos_eq (21 / 10) 1 8808038 (by norm_num)
    (by norm_num [pow2, int_toNat_lit]) (by norm_num [pow2, int_toNat_lit])
    (by norm_num) (by norm_num) (by norm_num [pow2, int_toNat_lit])
    (rne_down _ 8808038 (by norm_num [pow2, int_toNat_lit])
      (by norm_num [pow2, int_toNat_lit]))]
  norm_num

theorem lit_tenth : roundF32val (1 / 10) = 13421773 * pow2 (-27) := by
  rw [roundF32val_pos_eq (1 / 10) (-4) 13421773 (by norm_num)
    (by norm_num [pow2, int_toNat_lit]) (by norm_num [pow2, int_toNat_lit])
    (by norm_num) (by norm_num) (by norm_num [pow2, int_toNat_lit])
    (rne_up _ 13421773 (by norm_num [pow2, int_toNat_lit])
      (by norm_num [pow2, int_toNat_lit]))]
  norm_num

theorem lit_128 : roundF32val (64 / 5) = 13421773 * pow2 (-20) := by
  rw [roundF32val_pos_eq (64 / 5) 3 13421773 (by norm_num)
    (by norm_num [pow2, int_toNat_lit]) (by norm_num [pow2, int_toNat_lit])
    (by norm_num) (by norm_num) (by norm_num [pow2, int_toNat_lit])
    (rne_up _ 13421773 (by norm_num [pow2, int_toNat_lit])
      (by norm_num [pow2, int_toNat_lit]))]
  norm_num

theorem lit_m13 : roundF32val (-13) = -13 := by
  rw [roundF32val_neg_eq (-13) 3 13631488 (by norm_num)
    (by norm_num [pow2, int_toNat_lit]) (by norm_num [pow2, int_toNat_lit])
    (by norm_num) (by norm_num) (by norm_num [pow2, int_toNat_lit])
    (rne_down _ 13631488 (by norm_num [pow2, int_toNat_lit])
      (by norm_num [pow2, int_toNat_lit]))]
  norm_num [pow2, int_toNat_lit]

theorem lit_019 : roundF32val (19 / 100) = 12750684 * pow2 (-26) := by
  rw [roundF32val_pos_eq (19 / 100) (-3) 12750684 (by norm_num)
    (by norm_num [pow2, int_toNat_lit]) (by norm_num [pow2, int_toNat_lit])
    (by norm_num) (by norm_num) (by norm_num [pow2, int_toNat_lit])
    (rne_down _ 12750684 (by norm_num [pow2, int_toNat_lit])
      (by norm_num [pow2, int_toNat_lit]))]
  norm_num

/-! The float32 quotients `x / 0.1f` computed by the quantizer on the
demo values, and the float32 products `q * 0.1f` computed by the
dequantizer. -/

theorem fd_half : fdiv32 (1 / 2) (13421773 * pow2 (-27)) = 5 := by
  simp only [fdiv32]
  have harg : (1 / 2 : ℚ) / (13421773 * pow2 (-27)) = 67108864 / 13421773 := by
    norm_num [pow2, int_toNat_lit]
  rw [harg, roundF32val_pos_eq (67108864 / 13421773) 2 10485760 (by norm_num)
    (by norm_num [pow2, int_toNat_lit]) (by norm_num [pow2, int_toNat_lit])
    (by norm_num) (by norm_num) (by norm_num [pow2, int_toNat_lit])
    (rne_up _ 10485760 (by norm_num [pow2, int_toNat_lit])
      (by norm_num [pow2, int_toNat_lit]))]
  norm_num [pow2, int_toNat_lit]

theorem fd_m12 : fdiv32 (-(10066330 * pow2 (-23))) (13421773 * pow2 (-27)) = -12 := by
  simp only [fdiv32]
  have harg : (-(10066330 * pow2 (-23)) : ℚ) / (13421773 * pow2 (-27)) =
      -(161061280 / 13421773) := by
    norm_num [pow2, int_toNat_lit]
  rw [harg, roundF32val_neg_eq (-(161061280 / 13421773)) 3 12582912 (by norm_num)
    (by norm_num [pow2, int_toNat_lit]) (by norm_num [pow2, int_toNat_lit])
    (by norm_num) (by norm_num) (by norm_num [pow2, int_toNat_lit])
    (rne_down _ 12582912 (by norm_num [pow2, int_toNat_lit])
      (by norm_num [pow2, int_toNat_lit]))]
  norm_num [pow2, int_toNat_lit]

theorem fd_34 : fdiv32 (14260634 * pow2 (-22)) (13421773 * pow2 (-27)) = 34 := by
  simp only [fdiv32]
  have harg : (14260634 * pow2 (-22) : ℚ) / (13421773 * pow2 (-27)) =
      456340288 / 13421773 := by
    norm_num [pow2, int_toNat_lit]
  rw [harg, roundF32val_pos_eq (456340288 / 13421773) 5 8912896 (by norm_num)
    (by norm_num [pow2, int_toNat_lit]) (by norm_num [pow2, int_toNat_lit])
    (by norm_num) (by norm_num) (by norm_num [pow2, int_toNat_lit])
    (rne_down _ 8912896 (by norm_num [pow2, int_toNat_lit])
      (by norm_num [pow2, int_toNat_lit]))]
  norm_num [pow2, int_toNat_lit]

theorem fd_21 : fdiv32 (8808038 * pow2 (-22)) (13421773 * pow2 (-27)) =
    11010047 * pow2 (-19) := by
  simp only [fdiv32]
  have harg : (8808038 * pow2 (-22) : ℚ) / (13421773 * pow2 (-27)) =
      281857216 / 13421773 := by
    norm_num [pow2, int_toNat_lit]
  rw [harg, roundF32val_pos_eq (281857216 / 13421773) 4 11010047 (by norm_num)
    (by norm_num [pow2, int_toNat_lit]) (by norm_num [pow2, int_toNat_lit])
    (by norm_num) (by norm_num) (by norm_num [pow2, int_toNat_lit])
    (rne_down _ 11010047 (by norm_num [pow2, int_toNat_lit])
      (by norm_num [pow2, int_toNat_lit]))]
  norm_num [pow2, int_toNat_lit]

theorem fd_128 : fdiv32 (13421773 * pow2 (-20)) (13421773 * pow2 (-27)) = 128 := by
  simp only [fdiv32]
  have harg : (13421773 * pow2 (-20) : ℚ) / (13421773 * pow2 (-27)) = 128 := by
    norm_num [pow2, int_toNat_lit]
  rw [harg, roundF32val_pos_eq 128 7 8388608 (by norm_num)
    (by norm_num [pow2, int_toNat_lit]) (by norm_num [pow2, int_toNat_lit])
    (by norm_num) (by norm_num) (by norm_num [pow2, int_toNat_lit])
    (rne_down _ 8388608 (by norm_num [pow2, int_toNat_lit])
      (by norm_num [pow2, int_toNat_lit]))]
  norm_num [pow2, int_toNat_lit]

theorem fd_m13 : fdiv32 (-13) (13421773 * pow2 (-27)) = -130 := by
  simp only [fdiv32]
  have harg : (-13 : ℚ) / (13421773 * pow2 (-27)) = -(1744830464 / 13421773) := by
    norm_num [pow2, int_toNat_lit]
  rw [harg, roundF32val_neg_eq (-(1744830464 / 13421773)) 7 8519680 (by norm_num)
    (by norm_num [pow2, int_toNat_lit]) (by norm_num [pow2, int_toNat_lit])
    (by norm_num) (by norm_num) (by norm_num [pow2, int_toNat_lit])
    (rne_up _ 8519680 (by norm_num [pow2, int_toNat_lit])
      (by norm_num [pow2, int_toNat_lit]))]
  norm_num [pow2, int_toNat_lit]

theorem fd_019 : fdiv32 (12750684 * pow2 (-26)) (13421773 * pow2 (-27)) =
    15938355 * pow2 (-23) := by
  simp only [fdiv32]
  have harg : (12750684 * pow2 (-26) : ℚ) / (13421773 * pow2 (-27)) =
      25501368 / 13421773 := by
    norm_num [pow2, int_toNat_lit]
  rw [harg, roundF32val_pos_eq (25501368 / 13421773) 0 15938355 (by norm_num)
    (by norm_num [pow2, int_toNat_lit]) (by norm_num [pow2, int_toNat_lit])
    (by norm_num) (by norm_num) (by norm_num [pow2, int_toNat_lit])
    (rne_up _ 15938355 (by norm_num [pow2, int_toNat_lit])
      (by norm_num [pow2, int_toNat_lit]))]
  norm_num [pow2, int_toNat_lit]

theorem de_5 : dequantElem 5 (13421773 * pow2 (-27)) = 1 / 2 := by
  simp only [dequantElem]
  have harg : ((5 : ℤ) : ℚ) * (13421773 * pow2 (-27)) = 67108865 / 134217728 := by
    norm_num [pow2, int_toNat_lit]
  rw [harg, roundF32val_pos_eq (67108865 / 134217728) (-1) 8388608 (by norm_num)
    (by norm_num [pow2, int_toNat_lit]) (by norm_num [pow2, int_toNat_lit])
    (by norm_num) (by norm_num) (by norm_num [pow2, int_toNat_lit])
    (rne_down _ 8388608 (by norm_num [pow2, int_toNat_lit])
      (by norm_num [pow2, int_toNat_lit]))]
  norm_num [pow2, int_toNat_lit]

theorem de_m12 : dequantElem (-12) (13421773 * pow2 (-27)) = -(10066330 * pow2 (-23)) := by
  simp only [dequantElem]
  have harg : ((-12 : ℤ) : ℚ) * (13421773 * pow2 (-27)) = -(161061276 / 134217728) := by
    norm_num [pow2, int_toNat_lit]
  rw [harg, roundF32val_neg_eq (-(161061276 / 134217728)) 0 10066330 (by norm_num)
    (by norm_num [pow2, int_toNat_lit]) (by norm_num [pow2, int_toNat_lit])
    (by norm_num) (by norm_num) (by norm_num [pow2, int_toNat_lit])
    (rne_up _ 10066330 (by norm_num [pow2, int_toNat_lit])
      (by norm_num [pow2, int_toNat_lit]))]
  norm_num

theorem de_34 : dequantElem 34 (13421773 * pow2 (-27)) = 14260634 * pow2 (-22) := by
  simp only [dequantElem]
  have harg : ((34 : ℤ) : ℚ) * (13421773 * pow2 (-27)) = 456340282 / 134217728 := by
    norm_num [pow2, int_toNat_lit]
  rw [harg, roundF32val_pos_eq (456340282 / 134217728) 1 14260634 (by norm_num)
    (by norm_num [pow2, int_toNat_lit]) (by norm_num [pow2, int_toNat_lit])
    (by norm_num) (by norm_num) (by norm_num [pow2, int_toNat_lit])
    (rne_up _ 14260634 (by norm_num [pow2, int_toNat_lit])
      (by norm_num [pow2, int_toNat_lit]))]
  norm_num

theorem de_21 : dequantElem 21 (13421773 * pow2 (-27)) = 8808039 * pow2 (-22) := by
  simp only [dequantElem]
  have harg : ((21 : ℤ) : ℚ) * (13421773 * pow2 (-27)) = 281857233 / 134217728 := by
    norm_num [pow2, int_toNat_lit]
  rw [harg, roundF32val_pos_eq (281857233 / 134217728) 1 8808039 (by norm_num)
    (by norm_num [pow2, int_toNat_lit]) (by norm_num [pow2, int_toNat_lit])
    (by norm_num) (by norm_num) (by norm_num [pow2, int_toNat_lit])
    (rne_up _ 8808039 (by norm_num [pow2, int_toNat_lit])
      (by norm_num [pow2, int_toNat_lit]))]
  norm_num

theorem de_1 : dequantElem 1 (13421773 * pow2 (-27)) = 13421773 * pow2 (-27) := by
  simp only [dequantElem]
  have harg : ((1 : ℤ) : ℚ) * (13421773 * pow2 (-27)) = 13421773 / 134217728 := by
    norm_num [pow2, int_toNat_lit]
  rw [harg, roundF32val_pos_eq (13421773 / 134217728) (-4) 13421773 (by norm_num)
    (by norm_num [pow2, int_toNat_lit]) (by norm_num [pow2, int_toNat_lit])
    (by norm_num) (by norm_num) (by norm_num [pow2, int_toNat_lit])
    (rne_down _ 13421773 (by norm_num [pow2, int_toNat_lit])
      (by norm_num [pow2, int_toNat_lit]))]
  norm_num [pow2, int_toNat_lit]

/-! The per-element quantizer results on the demo and example values. -/

theorem qe_half : quantElem (roundF32val (1 / 2)) (roundF32val (1 / 10)) = 5 := by
  rw [lit_half, lit_tenth]
  exact quantElem_eval _ _ 5 5 fd_half (by norm_num) (by norm_num)
    (truncQ_eq_nonneg (by norm_num) (by norm_num) (by norm_num))

theorem qe_m12 : quantElem (roundF32val (-6 / 5)) (roundF32val (1 / 10)) = -12 := by
  rw [lit_m12, lit_tenth]
  exact quantElem_eval _ _ (-12) (-12) fd_m12 (by norm_num) (by norm_num)
    (truncQ_eq_nonpos (by norm_num) (by norm_num) (by norm_num))

theorem qe_34 : quantElem (roundF32val (17 / 5)) (roundF32val (1 / 10)) = 34 := by
  rw [lit_34, lit_tenth]
  exact quantElem_eval _ _ 34 34 fd_34 (by norm_num) (by norm_num)
    (truncQ_eq_nonneg (by norm_num) (by norm_num) (by norm_num))

theorem qe_21 : quantElem (roundF32val (21 / 10)) (roundF32val (1 / 10)) = 20 := by
  rw [lit_21, lit_tenth]
  exact quantElem_eval _ _ (11010047 * pow2 (-19)) 20 fd_21
    (by norm_num [pow2, int_toNat_lit]) (by norm_num [pow2, int_toNat_lit])
    (truncQ_eq_nonneg (by norm_num) (by norm_num [pow2, int_toNat_lit])
      (by norm_num [pow2, int_toNat_lit]))

theorem qe_128 : quantElem (roundF32val (64 / 5)) (roundF32val (1 / 10)) = 127 := by
  rw [lit_128, lit_tenth]
  exact quantElem_eval_hi _ _ 128 fd_128 (by norm_num)

theorem qe_m13 : quantElem (roundF32val (-13)) (roundF32val (1 / 10)) = -128 := by
  rw [lit_m13, lit_tenth]
  exact quantElem_eval_lo _ _ (-130) fd_m13 (by norm_num) (by norm_num)

theorem qe_019 : quantElem (roundF32val (19 / 100)) (roundF32val (1 / 10)) = 1 := by
  rw [lit_019, lit_tenth]
  exact quantElem_eval _ _ (15938355 * pow2 (-23)) 1 fd_019
    (by norm_num [pow2, int_toNat_lit]) (by norm_num [pow2, int_toNat_lit])
    (truncQ_eq_nonneg (by norm_num) (by norm_num [pow2, int_toNat_lit])
      (by norm_num [pow2, int_toNat_lit]))

/-! ### The claims about the quantizer -/

/-- C1 (amended): quantizing the demo buffer `[0.5, -1.2, 3.4, 2.1]` with
scale `0.1f` yields `[5, -12, 34, 20]` — the quotient `2.1f / 0.1f` rounds
in float32 to just below 21, and truncation toward zero yields 20, not the
21 the spec states.  Dequantizing `[5, -12, 34, 21]` with scale `0.1f`
yields the float32 values of `0.5`, `-1.2` and `3.4` exactly, but the last
element is `21 * 0.1f = 2.1000001...f`, one float32 ulp (2^-22) above
`2.1f` — not exactly `2.1f` as the spec states. -/
theorem C1_worked_example :
    quantizeList [roundF32val (1 / 2), roundF32val (-6 / 5), roundF32val (17 / 5),
        roundF32val (21 / 10)] (roundF32val (1 / 10)) = [5, -12, 34, 20] ∧
    dequantizeList [5, -12, 34, 21] (roundF32val (1 / 10)) =
      [roundF32val (1 / 2), roundF32val (-6 / 5), roundF32val (17 / 5),
        roundF32val (21 / 10) + pow2 (-22)] := by
  constructor
  · simp only [quantizeList, List.map]
    rw [qe_half, qe_m12, qe_34, qe_21]
  · simp only [dequantizeList, List.map]
    rw [lit_tenth, de_5, de_m12, de_34, de_21, lit_half, lit_m12, lit_34, lit_21]
    norm_num [pow2, int_toNat_lit]

/-- C1 (counterexample): the worked example of the spec fails on the code — the
quantized buffer is not `[5, -12, 34, 21]` and the dequantized buffer is
not exactly the original; the fourth element differs in both directions. -/
theorem C1_counterexample :
    ¬ (quantizeList [roundF32val (1 / 2), roundF32val (-6 / 5), roundF32val (17 / 5),
        roundF32val (21 / 10)] (roundF32val (1 / 10)) = [5, -12, 34, 21] ∧
      dequantizeList [5, -12, 34, 21] (roundF32val (1 / 10)) =
        [roundF32val (1 / 2), roundF32val (-6 / 5), roundF32val (17 / 5),
          roundF32val (21 / 10)]) := by
  intro h
  have h1 := h.1
  simp only [quantizeList, List.map] at h1
  rw [qe_half, qe_m12, qe_34, qe_21] at h1
  simp at h1

/-- C2: for every element and every scale the quantizer computes the
float32 quotient, clamps it in the float domain to at most 127 and at
least -128, and only then truncates toward zero; in particular
`quantize([12.8], 0.1)` saturates to `[127]` and `quantize([-13.0], 0.1)`
to `[-128]`. -/
theorem C2_clamp_then_truncate :
    (∀ x s : ℚ, quantElem x s = truncQ (max (-128) (min 127 (fdiv32 x s)))) ∧
    quantizeList [roundF32val (64 / 5)] (roundF32val (1 / 10)) = [127] ∧
    quantizeList [roundF32val (-13)] (roundF32val (1 / 10)) = [-128] := by
  refine ⟨?_, ?_, ?_⟩
  · intro x s
    simp only [quantElem]
    by_cases h1 : 127 < fdiv32 x s
    · rw [if_pos h1, if_neg (by norm_num : ¬ ((127 : ℚ) < -128)),
        min_eq_left (le_of_lt h1), max_eq_right (by norm_num : (-128 : ℚ) ≤ 127)]
    · rw [if_neg h1, min_eq_right (not_lt.mp h1)]
      by_cases h2 : fdiv32 x s < -128
      · rw [if_pos h2, max_eq_left (le_of_lt h2)]
      · rw [if_neg h2, max_eq_right (not_lt.mp h2)]
  · simp only [quantizeList, List.map]
    rw [qe_128]
  · simp only [quantizeList, List.map]
    rw [qe_m13]

/-- C8 (counterexample): at `x = 0.19f`, `s = 0.1f` the quotient rounds to
just below 1.9, truncation yields 1, and the dequantized value `0.1f` is
0.09 away from `x` — far beyond `s/2`, with no saturation involved. -/
theorem C8_counterexample :
    -128 ≤ fdiv32 (roundF32val (19 / 100)) (roundF32val (1 / 10)) ∧
    fdiv32 (roundF32val (19 / 100)) (roundF32val (1 / 10)) ≤ 127 ∧
    ¬ (|dequantElem (quantElem (roundF32val (19 / 100)) (roundF32val (1 / 10)))
        (roundF32val (1 / 10)) - roundF32val (19 / 100)| ≤ roundF32val (1 / 10) / 2) := by
  refine ⟨?_, ?_, ?_⟩
  · rw [lit_019, lit_tenth, fd_019]
    norm_num [pow2, int_toNat_lit]
  · rw [lit_019, lit_tenth, fd_019]
    norm_num [pow2, int_toNat_lit]
  · rw [qe_019, lit_tenth, de_1, lit_019]
    intro hcon
    rw [show (13421773 * pow2 (-27) : ℚ) - 12750684 * pow2 (-26) =
        -(12079595 * pow2 (-27)) from by norm_num [pow2, int_toNat_lit], abs_neg,
      abs_of_pos (by norm_num [pow2, int_toNat_lit])] at hcon
    norm_num [pow2, int_toNat_lit] at hcon

/-- C8 (witness): the amended bound at `x = 0.5`, `s = 1`. -/
theorem C8_witness :
    (1 : ℚ) = ((2 ^ 149 : ℤ) : ℚ) * pow2 (-149) ∧ (0 : ℚ) < 1 ∧ (1 : ℚ) ≤ pow2 120 ∧
    -128 ≤ fdiv32 (1 / 2) 1 ∧ fdiv32 (1 / 2) 1 ≤ 127 ∧
    |dequantElem (quantElem (1 / 2) 1) 1 - 1 / 2| ≤ 1 * (1 + pow2 (-14)) := by
  have hfd : fdiv32 (1 / 2) 1 = 1 / 2 := by
    simp only [fdiv32]
    rw [div_one]
    exact lit_half
  have hk : (1 : ℚ) = ((2 ^ 149 : ℤ) : ℚ) * pow2 (-149) := by
    norm_num [pow2, int_toNat_lit]
  have h120 : (1 : ℚ) ≤ pow2 120 := by
    norm_num [pow2, int_toNat_lit]
  have hlo : -128 ≤ fdiv32 (1 / 2) 1 := by rw [hfd]; norm_num
  have hhi : fdiv32 (1 / 2) 1 ≤ 127 := by rw [hfd]; norm_num
  exact ⟨hk, by norm_num, h120, hlo, hhi,
    quant_dequant_err (1 / 2) 1 (2 ^ 149) hk (by norm_num) h120 hlo hhi⟩

/-! ### Bit-level facts for the float16 codec -/

theorem and_single_bit (x k : ℕ) : x &&& 2 ^ k = x / 2 ^ k % 2 * 2 ^ k := by
  rw [Nat.and_two_pow, Nat.testBit_to_div_mod]
  rcases Nat.mod_two_eq_zero_or_one (x / 2 ^ k) with h | h <;> simp [h]

theorem lor_eq_add_gen (a b k : ℕ) (ha : ∃ c, a = 2 ^ k * c) (hb : b < 2 ^ k) :
    a ||| b = a + b := by
  obtain ⟨c, rfl⟩ := ha
  rw [← Nat.mul_add_lt_is_or hb c]

/-- The top ten bits of the 23-bit mantissa: shifting first and masking to
ten bits is the same as masking to 23 bits and then shifting. -/
theorem mant_top_bits (bits : ℕ) :
    (bits >>> 13) &&& 0x3FF = (bits &&& 0x7FFFFF) >>> 13 := by
  rw [show (0x3FF : ℕ) = 2 ^ 10 - 1 from rfl, show (0x7FFFFF : ℕ) = 2 ^ 23 - 1 from rfl,
    Nat.and_pow_two_sub_one_eq_mod, Nat.and_pow_two_sub_one_eq_mod,
    Nat.shiftRight_eq_div_pow, Nat.shiftRight_eq_div_pow, ← Nat.mod_mul_right_div_self]

/-- The sign field extracted by the encoder is the float32 sign bit moved
to bit 15. -/
theorem sign_field_eq (bits : ℕ) (hb : bits < 2 ^ 32) :
    (bits >>> 16) &&& 0x8000 = bits / 2 ^ 31 * 2 ^ 15 := by
  rw [show (0x8000 : ℕ) = 2 ^ 15 from rfl, and_single_bit, Nat.shiftRight_eq_div_pow,
    Nat.div_div_eq_div_mul]
  have h1 : 2 ^ 16 * 2 ^ 15 = 2 ^ 31 := by norm_num
  rw [h1]
  have h2 : bits / 2 ^ 31 < 2 := by omega
  omega

/-- In the normal-range branch the encoder produces the arithmetic sum of
its three disjoint fields. -/
theorem encode_normal_sum (bits : ℕ) (hb : bits < 2 ^ 32)
    (hlo : 113 ≤ (bits >>> 23) &&& 0xFF) (hhi : (bits >>> 23) &&& 0xFF ≤ 142) :
    float32_to_float16 bits =
      bits / 2 ^ 31 * 2 ^ 15 + (((bits >>> 23) &&& 0xFF) - 112) * 2 ^ 10 +
      (bits &&& 0x7FFFFF) / 2 ^ 13 := by
  have hmlt : (bits &&& 0x7FFFFF) / 2 ^ 13 < 2 ^ 10 := by
    rw [show (0x7FFFFF : ℕ) = 2 ^ 23 - 1 from rfl, Nat.and_pow_two_sub_one_eq_mod]
    omega
  have hdiv : (bits &&& 0x7FFFFF) >>> 13 = (bits &&& 0x7FFFFF) / 2 ^ 13 :=
    Nat.shiftRight_eq_div_pow _ _
  simp only [float32_to_float16]
  rw [mant_top_bits, sign_field_eq bits hb, hdiv]
  rw [if_neg (by omega), if_neg (by omega)]
  have htn : ((((bits >>> 23) &&& 0xFF : ℕ) : ℤ) - 127 + 15).toNat =
      ((bits >>> 23) &&& 0xFF) - 112 := by omega
  rw [htn, Nat.shiftLeft_eq]
  rw [lor_eq_add_gen (bits / 2 ^ 31 * 2 ^ 15) ((((bits >>> 23) &&& 0xFF) - 112) * 2 ^ 10) 15
    ⟨bits / 2 ^ 31, by ring⟩ (by omega)]
  rw [lor_eq_add_gen
    (bits / 2 ^ 31 * 2 ^ 15 + (((bits >>> 23) &&& 0xFF) - 112) * 2 ^ 10)
    ((bits &&& 0x7FFFFF) / 2 ^ 13) 10
    ⟨bits / 2 ^ 31 * 2 ^ 5 + (((bits >>> 23) &&& 0xFF) - 112), by ring⟩ (by omega)]

/-- The decoder on a 16-bit word split into sign, exponent and mantissa
fields produces the arithmetic sum of the three rebiased fields. -/
theorem decode_sum (v s e10 m10 : ℕ) (hs : s ≤ 1) (he1 : 1 ≤ e10) (he2 : e10 ≤ 30)
    (hm : m10 < 2 ^ 10) (hv : v = s * 2 ^ 15 + e10 * 2 ^ 10 + m10) :
    float16_to_float32 v = s * 2 ^ 31 + (e10 + 112) * 2 ^ 23 + m10 * 2 ^ 13 := by
  have hlow : v &&& 0x7FFF = e10 * 2 ^ 10 + m10 := by
    rw [show (0x7FFF : ℕ) = 2 ^ 15 - 1 from rfl, Nat.and_pow_two_sub_one_eq_mod, hv]
    omega
  simp only [float16_to_float32]
  rw [if_neg (by rw [hlow]; omega)]
  have hsgn : (v &&& 0x8000) <<< 16 = s * 2 ^ 31 := by
    rw [show (0x8000 : ℕ) = 2 ^ 15 from rfl, and_single_bit, Nat.shiftLeft_eq, hv]
    omega
  have hexp : (v >>> 10) &&& 0x1F = e10 := by
    rw [show (0x1F : ℕ) = 2 ^ 5 - 1 from rfl, Nat.and_pow_two_sub_one_eq_mod,
      Nat.shiftRight_eq_div_pow, hv]
    omega
  have hman : v &&& 0x3FF = m10 := by
    rw [show (0x3FF : ℕ) = 2 ^ 10 - 1 from rfl, Nat.and_pow_two_sub_one_eq_mod, hv]
    omega
  rw [hsgn, hexp, hman, Nat.shiftLeft_eq, Nat.shiftLeft_eq]
  rw [lor_eq_add_gen (s * 2 ^ 31) ((e10 + 112) * 2 ^ 23) 31 ⟨s, by ring⟩ (by omega)]
  rw [lor_eq_add_gen (s * 2 ^ 31 + (e10 + 112) * 2 ^ 23) (m10 * 2 ^ 13) 23
    ⟨s * 2 ^ 8 + (e10 + 112), by ring⟩ (by omega)]

/-- The value of a float32 bit pattern assembled from its fields, for a
normal (nonzero, non-maximal is not required) exponent field. -/
theorem f32toRat_fields (s e m : ℕ) (hs : s ≤ 1) (he1 : 1 ≤ e) (he2 : e ≤ 255)
    (hm : m < 2 ^ 23) :
    f32toRat (s * 2 ^ 31 + e * 2 ^ 23 + m) =
      (if s = 1 then (-1 : ℚ) else 1) * ((2 ^ 23 + m : ℕ) : ℚ) * pow2 ((e : ℤ) - 150) := by
  have hsgn : (s * 2 ^ 31 + e * 2 ^ 23 + m) >>> 31 = s := by
    rw [Nat.shiftRight_eq_div_pow]
    omega
  have hexp : ((s * 2 ^ 31 + e * 2 ^ 23 + m) >>> 23) &&& 0xFF = e := by
    rw [show (0xFF : ℕ) = 2 ^ 8 - 1 from rfl, Nat.and_pow_two_sub_one_eq_mod,
      Nat.shiftRight_eq_div_pow]
    omega
  have hman : (s * 2 ^ 31 + e * 2 ^ 23 + m) &&& 0x7FFFFF = m := by
    rw [show (0x7FFFFF : ℕ) = 2 ^ 23 - 1 from rfl, Nat.and_pow_two_sub_one_eq_mod]
    omega
  simp only [f32toRat]
  rw [hexp, hman, hsgn]
  rw [if_neg (show ¬ (e = 0) from by omega)]
  rcases Nat.le_one_iff_eq_zero_or_eq_one.mp hs with h0 | h1
  · subst h0
    norm_num
  · subst h1
    norm_num
    ring

/-! ### The claims about the float16 codec -/

/-- C3: whenever the rebiased exponent (biased exponent - 127 + 15) is at
most 0 the encoder returns exactly 0, the sign bit included; in particular
`0.0f` (pattern 0) and `-0.0f` (pattern 0x80000000) both encode to 0, and
decoding 0 gives `0.0f` (pattern 0). -/
theorem C3_underflow_to_zero :
    (∀ bits : ℕ, (((bits >>> 23) &&& 0xFF : ℕ) : ℤ) - 127 + 15 ≤ 0 →
      float32_to_float16 bits = 0) ∧
    float32_to_float16 0 = 0 ∧ float32_to_float16 0x80000000 = 0 ∧
    float16_to_float32 0 = 0 := by
  have main : ∀ bits : ℕ, (((bits >>> 23) &&& 0xFF : ℕ) : ℤ) - 127 + 15 ≤ 0 →
      float32_to_float16 bits = 0 := by
    intro bits h
    simp only [float32_to_float16]
    rw [if_pos h]
  exact ⟨main, main 0 (by decide), main 0x80000000 (by decide), by decide⟩

/-- C3 (witness): the smallest normal float32, `2^-126` (pattern 2^23),
has rebiased exponent `1 - 112 ≤ 0` and encodes to 0. -/
theorem C3_witness :
    ((((8388608 >>> 23) &&& 0xFF : ℕ) : ℤ) - 127 + 15 ≤ 0) ∧
    float32_to_float16 8388608 = 0 :=
  ⟨by decide, C3_underflow_to_zero.1 8388608 (by decide)⟩

/-- C4: whenever the rebiased exponent is at least 31 — actual infinities
(exponent field 255) as well as merely out-of-range finite magnitudes —
the encoder returns the sign bit ORed with 0x7C00: exponent field 11111,
zero mantissa, sign preserved. -/
theorem C4_overflow_to_inf :
    ∀ bits : ℕ, bits < 2 ^ 32 → (31 : ℤ) ≤ (((bits >>> 23) &&& 0xFF : ℕ) : ℤ) - 127 + 15 →
      float32_to_float16 bits = ((bits >>> 16) &&& 0x8000) ||| 0x7C00 ∧
      (float32_to_float16 bits >>> 10) &&& 0x1F = 31 ∧
      float32_to_float16 bits &&& 0x3FF = 0 ∧
      float32_to_float16 bits >>> 15 = bits >>> 31 := by
  intro bits hb h
  have heq : float32_to_float16 bits = ((bits >>> 16) &&& 0x8000) ||| 0x7C00 := by
    simp only [float32_to_float16]
    rw [if_neg (by omega), if_pos h]
  have hs := sign_field_eq bits hb
  have hd : bits >>> 31 = bits / 2 ^ 31 := Nat.shiftRight_eq_div_pow _ _
  have hcase : bits / 2 ^ 31 = 0 ∨ bits / 2 ^ 31 = 1 := by omega
  refine ⟨heq, ?_, ?_, ?_⟩
  · rw [heq, hs]
    rcases hcase with h0 | h1
    · rw [h0]; decide
    · rw [h1]; decide
  · rw [heq, hs]
    rcases hcase with h0 | h1
    · rw [h0]; decide
    · rw [h1]; decide
  · rw [heq, hs, hd]
    rcases hcase with h0 | h1
    · rw [h0]; decide
    · rw [h1]; decide

/-- C4 (witness): `+inf` (pattern 0x7F800000) encodes to 0x7C00 with the
stated fields. -/
theorem C4_witness :
    ((0x7F800000 : ℕ) < 2 ^ 32 ∧
      (31 : ℤ) ≤ (((0x7F800000 >>> 23) &&& 0xFF : ℕ) : ℤ) - 127 + 15) ∧
    (float32_to_float16 0x7F800000 = ((0x7F800000 >>> 16) &&& 0x8000) ||| 0x7C00 ∧
      (float32_to_float16 0x7F800000 >>> 10) &&& 0x1F = 31 ∧
      float32_to_float16 0x7F800000 &&& 0x3FF = 0 ∧
      float32_to_float16 0x7F800000 >>> 15 = 0x7F800000 >>> 31) :=
  ⟨⟨by decide, by decide⟩, C4_overflow_to_inf 0x7F800000 (by decide) (by decide)⟩

/-- C5: decoding returns 0 whenever the low 15 bits are zero (encoded zero
and encoded negative zero both map to the pattern of +0.0f); every other
input decodes to the bit pattern (sign at bit 31) | ((exponent + 112) <<
23) | (mantissa << 13), where `exponent + 112` is the C expression
`exponent - 15 + 127` on `uint32_t`.  The exponent field 11111 is rebiased
arithmetically like any other: the half-precision infinity code 0x7C00
decodes to the large-but-finite float32 65536.0 (pattern 0x47800000). -/
theorem C5_decode_formula :
    (∀ v : ℕ, v &&& 0x7FFF = 0 → float16_to_float32 v = 0) ∧
    (∀ v : ℕ, v &&& 0x7FFF ≠ 0 →
      float16_to_float32 v = ((v &&& 0x8000) <<< 16) |||
        ((((v >>> 10) &&& 0x1F) + 112) <<< 23) ||| ((v &&& 0x3FF) <<< 13)) ∧
    float16_to_float32 0x7C00 = 0x47800000 ∧ f32toRat 0x47800000 = 65536 := by
  refine ⟨?_, ?_, by decide, ?_⟩
  · intro v h
    simp only [float16_to_float32]
    rw [if_pos h]
  · intro v h
    simp only [float16_to_float32]
    rw [if_neg h]
  · have hsplit : (0x47800000 : ℕ) = 0 * 2 ^ 31 + 143 * 2 ^ 23 + 0 := by norm_num
    rw [hsplit, f32toRat_fields 0 143 0 (by norm_num) (by norm_num) (by norm_num)
      (by norm_num)]
    norm_num [pow2, int_toNat_lit]

/-- C5 (witness): the negative-zero encoding 0x8000 decodes to 0, and the
half-precision 1.0 (0x3C00) decodes through the stated formula. -/
theorem C5_witness :
    ((0x8000 : ℕ) &&& 0x7FFF = 0 ∧ float16_to_float32 0x8000 = 0) ∧
    ((0x3C00 : ℕ) &&& 0x7FFF ≠ 0 ∧
      float16_to_float32 0x3C00 = ((0x3C00 &&& 0x8000) <<< 16) |||
        ((((0x3C00 >>> 10) &&& 0x1F) + 112) <<< 23) ||| ((0x3C00 &&& 0x3FF) <<< 13)) :=
  ⟨⟨by decide, C5_decode_formula.1 0x8000 (by decide)⟩,
   ⟨by decide, C5_decode_formula.2.1 0x3C00 (by decide)⟩⟩

/-- C6: for rebiased exponents strictly between 0 and 31 the encoder
returns sign | (new_exp << 10) | mantissa where the mantissa is the top 10
of the 23 mantissa bits, the low 13 discarded by pure truncation — the
stored mantissa field is exactly the truncated bits, with no rounding. -/
theorem C6_normal_truncation :
    ∀ bits : ℕ, bits < 2 ^ 32 →
      (0 : ℤ) < (((bits >>> 23) &&& 0xFF : ℕ) : ℤ) - 127 + 15 →
      (((bits >>> 23) &&& 0xFF : ℕ) : ℤ) - 127 + 15 < (31 : ℤ) →
      float32_to_float16 bits =
        ((bits >>> 16) &&& 0x8000) |||
          (((((bits >>> 23) &&& 0xFF : ℕ) : ℤ) - 127 + 15).toNat <<< 10) |||
          ((bits &&& 0x7FFFFF) >>> 13) ∧
      float32_to_float16 bits &&& 0x3FF = (bits &&& 0x7FFFFF) >>> 13 := by
  intro bits hb h1 h2
  constructor
  · simp only [float32_to_float16]
    rw [if_neg (by omega), if_neg (by omega), mant_top_bits]
  · have hlo : 113 ≤ (bits >>> 23) &&& 0xFF := by omega
    have hhi : (bits >>> 23) &&& 0xFF ≤ 142 := by omega
    have hmlt : (bits &&& 0x7FFFFF) / 2 ^ 13 < 2 ^ 10 := by
      rw [show (0x7FFFFF : ℕ) = 2 ^ 23 - 1 from rfl, Nat.and_pow_two_sub_one_eq_mod]
      omega
    have hdiv : (bits &&& 0x7FFFFF) >>> 13 = (bits &&& 0x7FFFFF) / 2 ^ 13 :=
      Nat.shiftRight_eq_div_pow _ _
    rw [encode_normal_sum bits hb hlo hhi, hdiv,
      show (0x3FF : ℕ) = 2 ^ 10 - 1 from rfl, Nat.and_pow_two_sub_one_eq_mod]
    omega

/-- C6 (witness): `1.5f` (pattern 0x3FC00000, rebiased exponent 15)
encodes through the stated formula. -/
theorem C6_witness :
    float32_to_float16 0x3FC00000 =
      ((0x3FC00000 >>> 16) &&& 0x8000) |||
        (((((0x3FC00000 >>> 23) &&& 0xFF : ℕ) : ℤ) - 127 + 15).toNat <<< 10) |||
        ((0x3FC00000 &&& 0x7FFFFF) >>> 13) ∧
    float32_to_float16 0x3FC00000 &&& 0x3FF = (0x3FC00000 &&& 0x7FFFFF) >>> 13 :=
  C6_normal_truncation 0x3FC00000 (by decide) (by decide) (by decide)

/-- C7: for every float32 bit pattern whose exponent field lies in the
half-precision normal range (rebiased exponent 1..30, i.e. field 113..142)
the encode/decode round trip reproduces the value within the
half-precision relative error bound 2^-10: only the low 13 mantissa bits
are lost, and they are worth less than 2^-10 of the value. -/
theorem C7_roundtrip_bound :
    ∀ bits : ℕ, bits < 2 ^ 32 → 113 ≤ (bits >>> 23) &&& 0xFF →
      (bits >>> 23) &&& 0xFF ≤ 142 →
      |f32toRat (float16_to_float32 (float32_to_float16 bits)) - f32toRat bits| ≤
        pow2 (-10) * |f32toRat bits| := by
  intro bits hb hlo hhi
  have hEdef : (bits >>> 23) &&& 0xFF = bits / 2 ^ 23 % 2 ^ 8 := by
    rw [show (0xFF : ℕ) = 2 ^ 8 - 1 from rfl, Nat.and_pow_two_sub_one_eq_mod,
      Nat.shiftRight_eq_div_pow]
  have hMdef : bits &&& 0x7FFFFF = bits % 2 ^ 23 := by
    rw [show (0x7FFFFF : ℕ) = 2 ^ 23 - 1 from rfl, Nat.and_pow_two_sub_one_eq_mod]
  have hm : bits &&& 0x7FFFFF < 2 ^ 23 := by rw [hMdef]; omega
  have hs1 : bits / 2 ^ 31 ≤ 1 := by omega
  have hbits : bits = bits / 2 ^ 31 * 2 ^ 31 + ((bits >>> 23) &&& 0xFF) * 2 ^ 23 +
      (bits &&& 0x7FFFFF) := by
    rw [hEdef, hMdef]
    omega
  have h16 := encode_normal_sum bits hb hlo hhi
  have h10 : (bits &&& 0x7FFFFF) / 2 ^ 13 < 2 ^ 10 := by omega
  have h32 := decode_sum (float32_to_float16 bits) (bits / 2 ^ 31)
    (((bits >>> 23) &&& 0xFF) - 112) ((bits &&& 0x7FFFFF) / 2 ^ 13)
    hs1 (by omega) (by omega) h10 h16
  have hplus : ((bits >>> 23) &&& 0xFF) - 112 + 112 = (bits >>> 23) &&& 0xFF := by omega
  rw [hplus] at h32
  have hv1 : f32toRat (float16_to_float32 (float32_to_float16 bits)) =
      (if bits / 2 ^ 31 = 1 then (-1 : ℚ) else 1) *
        ((2 ^ 23 + (bits &&& 0x7FFFFF) / 2 ^ 13 * 2 ^ 13 : ℕ) : ℚ) *
        pow2 ((((bits >>> 23) &&& 0xFF : ℕ) : ℤ) - 150) := by
    rw [h32]
    exact f32toRat_fields _ _ _ hs1 (by omega) (by omega) (by omega)
  have hv0 : f32toRat bits =
      (if bits / 2 ^ 31 = 1 then (-1 : ℚ) else 1) *
        ((2 ^ 23 + (bits &&& 0x7FFFFF) : ℕ) : ℚ) *
        pow2 ((((bits >>> 23) &&& 0xFF : ℕ) : ℤ) - 150) := by
    conv_lhs => rw [hbits]
    exact f32toRat_fields _ _ _ hs1 (by omega) (by omega) hm
  rw [hv1, hv0]
  have hσ : |(if bits / 2 ^ 31 = 1 then (-1 : ℚ) else 1)| = 1 := by
    split <;> norm_num
  have hP : (0 : ℚ) < pow2 ((((bits >>> 23) &&& 0xFF : ℕ) : ℤ) - 150) := pow2_pos _
  have hsplit : (2 ^ 23 + (bits &&& 0x7FFFFF) : ℕ) =
      (2 ^ 23 + (bits &&& 0x7FFFFF) / 2 ^ 13 * 2 ^ 13) + (bits &&& 0x7FFFFF) % 2 ^ 13 := by
    omega
  have hc : ((2 ^ 23 + (bits &&& 0x7FFFFF) : ℕ) : ℚ) =
      ((2 ^ 23 + (bits &&& 0x7FFFFF) / 2 ^ 13 * 2 ^ 13 : ℕ) : ℚ) +
      (((bits &&& 0x7FFFFF) % 2 ^ 13 : ℕ) : ℚ) :=
    mod_cast congrArg (fun n : ℕ => (n : ℚ)) hsplit
  have hdiff : (if bits / 2 ^ 31 = 1 then (-1 : ℚ) else 1) *
        ((2 ^ 23 + (bits &&& 0x7FFFFF) / 2 ^ 13 * 2 ^ 13 : ℕ) : ℚ) *
        pow2 ((((bits >>> 23) &&& 0xFF : ℕ) : ℤ) - 150) -
      (if bits / 2 ^ 31 = 1 then (-1 : ℚ) else 1) *
        ((2 ^ 23 + (bits &&& 0x7FFFFF) : ℕ) : ℚ) *
        pow2 ((((bits >>> 23) &&& 0xFF : ℕ) : ℤ) - 150) =
      -((if bits / 2 ^ 31 = 1 then (-1 : ℚ) else 1) *
        (((bits &&& 0x7FFFFF) % 2 ^ 13 : ℕ) : ℚ) *
        pow2 ((((bits >>> 23) &&& 0xFF : ℕ) : ℤ) - 150)) := by
    rw [hc]
    ring
  rw [hdiff, abs_neg, abs_mul, abs_mul, hσ, one_mul, abs_of_pos hP, abs_mul, abs_mul,
    hσ, one_mul, abs_of_pos hP,
    abs_of_nonneg (show (0 : ℚ) ≤ (((bits &&& 0x7FFFFF) % 2 ^ 13 : ℕ) : ℚ) from by positivity),
    abs_of_nonneg (show (0 : ℚ) ≤ ((2 ^ 23 + (bits &&& 0x7FFFFF) : ℕ) : ℚ) from by positivity)]
  have hp10 : pow2 10 = ((2 ^ 10 : ℕ) : ℚ) := by norm_num [pow2, int_toNat_lit]
  have hrP : (((bits &&& 0x7FFFFF) % 2 ^ 13 : ℕ) : ℚ) * pow2 10 ≤
      ((2 ^ 23 + (bits &&& 0x7FFFFF) : ℕ) : ℚ) := by
    have hN : (bits &&& 0x7FFFFF) % 2 ^ 13 * 2 ^ 10 ≤ 2 ^ 23 + (bits &&& 0x7FFFFF) := by
      omega
    calc (((bits &&& 0x7FFFFF) % 2 ^ 13 : ℕ) : ℚ) * pow2 10
        = (((bits &&& 0x7FFFFF) % 2 ^ 13 * 2 ^ 10 : ℕ) : ℚ) := by
          rw [hp10]
          push_cast
          ring
    _ ≤ ((2 ^ 23 + (bits &&& 0x7FFFFF) : ℕ) : ℚ) := by exact_mod_cast hN
  calc (((bits &&& 0x7FFFFF) % 2 ^ 13 : ℕ) : ℚ) *
        pow2 ((((bits >>> 23) &&& 0xFF : ℕ) : ℤ) - 150)
      = ((((bits &&& 0x7FFFFF) % 2 ^ 13 : ℕ) : ℚ) * pow2 10) *
        (pow2 (-10) * pow2 ((((bits >>> 23) &&& 0xFF : ℕ) : ℤ) - 150)) := by
        have h1 : pow2 10 * pow2 (-10) = 1 := by
          rw [← pow2_add]
          norm_num [pow2]
        calc (((bits &&& 0x7FFFFF) % 2 ^ 13 : ℕ) : ℚ) *
            pow2 ((((bits >>> 23) &&& 0xFF : ℕ) : ℤ) - 150)
            = (((bits &&& 0x7FFFFF) % 2 ^ 13 : ℕ) : ℚ) * (pow2 10 * pow2 (-10)) *
              pow2 ((((bits >>> 23) &&& 0xFF : ℕ) : ℤ) - 150) := by rw [h1, mul_one]
        _ = ((((bits &&& 0x7FFFFF) % 2 ^ 13 : ℕ) : ℚ) * pow2 10) *
              (pow2 (-10) * pow2 ((((bits >>> 23) &&& 0xFF : ℕ) : ℤ) - 150)) := by ring
  _ ≤ ((2 ^ 23 + (bits &&& 0x7FFFFF) : ℕ) : ℚ) *
        (pow2 (-10) * pow2 ((((bits >>> 23) &&& 0xFF : ℕ) : ℤ) - 150)) :=
        mul_le_mul_of_nonneg_right hrP
          (le_of_lt (mul_pos (pow2_pos _) hP))
  _ = pow2 (-10) * (((2 ^ 23 + (bits &&& 0x7FFFFF) : ℕ) : ℚ) *
        pow2 ((((bits >>> 23) &&& 0xFF : ℕ) : ℤ) - 150)) := by ring

/-- C7 (witness): the round trip at `2.5f` (pattern 0x40200000). -/
theorem C7_witness :
    ((0x40200000 : ℕ) < 2 ^ 32 ∧ 113 ≤ (0x40200000 >>> 23) &&& 0xFF ∧
      (0x40200000 >>> 23) &&& 0xFF ≤ 142) ∧
    |f32toRat (float16_to_float32 (float32_to_float16 0x40200000)) -
        f32toRat 0x40200000| ≤ pow2 (-10) * |f32toRat 0x40200000| :=
  ⟨⟨by decide, by decide, by decide⟩,
    C7_roundtrip_bound 0x40200000 (by decide) (by decide) (by decide)⟩

/-! ### The claims about the element-wise contract and the type guard -/

/-- C9: dequantization writes `output[i] = source[i] * scale` — one
float32 multiply, no clamping — and both transforms preserve length and
the 1:1 positional correspondence: position `i` of each output is computed
from position `i` of the source alone (`quantElem` for quantization, the
rounded multiply for dequantization). -/
theorem C9_pointwise_and_length :
    ∀ (src : List ℤ) (fsrc : List ℚ) (s : ℚ) (i : ℕ),
      (dequantizeList src s).length = src.length ∧
      (quantizeList fsrc s).length = fsrc.length ∧
      (dequantizeList src s).get? i =
        (src.get? i).map (fun q : ℤ => roundF32val ((q : ℚ) * s)) ∧
      (quantizeList fsrc s).get? i =
        (fsrc.get? i).map (fun x : ℚ => quantElem x s) := by
  intro src fsrc s i
  refine ⟨?_, ?_, ?_, ?_⟩
  · simp [dequantizeList]
  · simp [quantizeList]
  · simp only [dequantizeList, List.get?_eq_getElem?, List.getElem?_map]
    rfl
  · simp only [quantizeList, List.get?_eq_getElem?, List.getElem?_map]

/-- C10: with a source not tagged FLOAT32 or a destination not tagged
INT8, `quantize_float32_to_int8` returns at once and the destination is
entirely unchanged; symmetrically for `dequantize_int8_to_float32` — a
silent no-op, no error, no partial write. -/
theorem C10_type_guard :
    ∀ (src dst : Tensor) (scale : ℚ),
      ((src.type ≠ TensorType.float32 ∨ dst.type ≠ TensorType.int8) →
        quantize_float32_to_int8 src dst scale = dst) ∧
      ((src.type ≠ TensorType.int8 ∨ dst.type ≠ TensorType.float32) →
        dequantize_int8_to_float32 src dst scale = dst) := by
  intro src dst scale
  constructor
  · intro h
    simp only [quantize_float32_to_int8]
    rw [if_pos h]
  · intro h
    simp only [dequantize_int8_to_float32]
    rw [if_pos h]

/-- C10 (witness): a FLOAT32 source with a FLOAT16 destination is left
untouched by both conversion routines. -/
theorem C10_witness :
    ((Tensor.mk TensorType.float32 1 1 (TensorData.f32 [])).type ≠ TensorType.float32 ∨
      (Tensor.mk TensorType.float16 1 1 (TensorData.f16 [])).type ≠ TensorType.int8) ∧
    quantize_float32_to_int8 (Tensor.mk TensorType.float32 1 1 (TensorData.f32 []))
      (Tensor.mk TensorType.float16 1 1 (TensorData.f16 [])) 1 =
      Tensor.mk TensorType.float16 1 1 (TensorData.f16 []) ∧
    ((Tensor.mk TensorType.float32 1 1 (TensorData.f32 [])).type ≠ TensorType.int8 ∨
      (Tensor.mk TensorType.float16 1 1 (TensorData.f16 [])).type ≠ TensorType.float32) ∧
    dequantize_int8_to_float32 (Tensor.mk TensorType.float32 1 1 (TensorData.f32 []))
      (Tensor.mk TensorType.float16 1 1 (TensorData.f16 [])) 1 =
      Tensor.mk TensorType.float16 1 1 (TensorData.f16 []) :=
  ⟨Or.inr (by decide),
    (C10_type_guard (Tensor.mk TensorType.float32 1 1 (TensorData.f32 []))
      (Tensor.mk TensorType.float16 1 1 (TensorData.f16 [])) 1).1 (Or.inr (by decide)),
    Or.inl (by decide),
    (C10_type_guard (Tensor.mk TensorType.float32 1 1 (TensorData.f32 []))
      (Tensor.mk TensorType.float16 1 1 (TensorData.f16 [])) 1).2 (Or.inl (by decide))⟩

end DynTensor
